import Mathlib

/-!
Verification of the protobuf-parsing exercise (protobuf-parsing/src/lib.rs).

Byte buffers are modelled as `List Nat` (each element a byte value), `u64`
values as `Nat` (overflow is marked with an explicit `% 2 ^ 64` where the
source can wrap), `Result<T, Error>` as `Except Error T`.  A Rust panic
(reachable through `.unwrap()` in `Person::add_field`) is modelled by a
dedicated outcome `PResult.panicked`, distinct from an `Error` result.
-/

namespace Proto

/-- Error type of the parser, translated from `enum Error` in the source.
`InvalidSize` abstracts the wrapped `TryFromIntError` payload. -/
inductive Error where
  | InvalidVarint
  | InvalidWireType
  | UnexpectedEOF
  | InvalidSize
  | UnexpectedWireType
  | InvalidString
deriving DecidableEq

/-- Wire type as seen on the wire, translated from `enum WireType`. -/
inductive WireType where
  | Varint
  | Len
  | I32
deriving DecidableEq

/-- Field value typed by wire type, translated from `enum FieldValue<'a>`.
`Len` holds the borrowed byte slice; `I32` holds a signed 32-bit value. -/
inductive FieldValue where
  | Varint : Nat → FieldValue
  | Len : List Nat → FieldValue
  | I32 : Int → FieldValue
deriving DecidableEq

/-- Field with its field number, translated from `struct Field<'a>`. -/
structure Field where
  field_num : Nat
  value : FieldValue
deriving DecidableEq

/-- Outcome of running parser code that may return `Ok`, return `Err`, or
panic (the `.unwrap()` in `Person::add_field` panics on a failed nested
decode).  A Rust `Result` maps to `ok`/`err`; a panic maps to `panicked`. -/
inductive PResult (α : Type) where
  | ok : α → PResult α
  | err : Error → PResult α
  | panicked : PResult α
deriving DecidableEq

/-- Field sink capability, translated from `trait ProtoMessage<'a>: Default`.
A record type provides its default value and its field-acceptance operation;
the operation is in state-passing style and may signal an error or panic. -/
structure ProtoMessage (α : Type) where
  default : α
  add_field : α → Field → PResult α

/-- Whether a byte is a UTF-8 continuation byte (0x80..0xBF). -/
def is_utf8_cont (b : Nat) : Bool := 0x80 ≤ b && b ≤ 0xBF

/-- Modelled from the Rust standard library (`std::str::from_utf8` is not part
of this repository): validity of a byte sequence as UTF-8, following the
standard byte-range table (RFC 3629) that `from_utf8` checks. -/
def utf8Valid : List Nat → Bool
  | [] => true
  | b :: rest =>
    if b ≤ 0x7F then utf8Valid rest
    else if 0xC2 ≤ b && b ≤ 0xDF then
      match rest with
      | c1 :: rest2 => is_utf8_cont c1 && utf8Valid rest2
      | [] => false
    else if b = 0xE0 then
      match rest with
      | c1 :: c2 :: rest2 =>
        (0xA0 ≤ c1 && c1 ≤ 0xBF) && is_utf8_cont c2 && utf8Valid rest2
      | _ => false
    else if (0xE1 ≤ b && b ≤ 0xEC) || (0xEE ≤ b && b ≤ 0xEF) then
      match rest with
      | c1 :: c2 :: rest2 => is_utf8_cont c1 && is_utf8_cont c2 && utf8Valid rest2
      | _ => false
    else if b = 0xED then
      match rest with
      | c1 :: c2 :: rest2 =>
        (0x80 ≤ c1 && c1 ≤ 0x9F) && is_utf8_cont c2 && utf8Valid rest2
      | _ => false
    else if b = 0xF0 then
      match rest with
      | c1 :: c2 :: c3 :: rest2 =>
        (0x90 ≤ c1 && c1 ≤ 0xBF) && is_utf8_cont c2 && is_utf8_cont c3 && utf8Valid rest2
      | _ => false
    else if 0xF1 ≤ b && b ≤ 0xF3 then
      match rest with
      | c1 :: c2 :: c3 :: rest2 =>
        is_utf8_cont c1 && is_utf8_cont c2 && is_utf8_cont c3 && utf8Valid rest2
      | _ => false
    else if b = 0xF4 then
      match rest with
      | c1 :: c2 :: c3 :: rest2 =>
        (0x80 ≤ c1 && c1 ≤ 0x8F) && is_utf8_cont c2 && is_utf8_cont c3 && utf8Valid rest2
      | _ => false
    else false

/-- Typed extraction `FieldValue::as_string`: requires a `Len` value, then
validates the bytes as UTF-8 (a `&str` is modelled as its validated byte
list). -/
def as_string (v : FieldValue) : Except Error (List Nat) :=
  match v with
  | FieldValue.Len data =>
    if utf8Valid data then Except.ok data else Except.error Error.InvalidString
  | _ => Except.error Error.UnexpectedWireType

/-- Typed extraction `FieldValue::as_bytes`: requires a `Len` value and
returns the borrowed range unchanged. -/
def as_bytes (v : FieldValue) : Except Error (List Nat) :=
  match v with
  | FieldValue.Len data => Except.ok data
  | _ => Except.error Error.UnexpectedWireType

/-- Typed extraction `FieldValue::as_u64`: requires a `Varint` value. -/
def as_u64 (v : FieldValue) : Except Error Nat :=
  match v with
  | FieldValue.Varint value => Except.ok value
  | _ => Except.error Error.UnexpectedWireType

/-- Value assembled by `parse_varint` from the consumed bytes `data[..=i]`:
`for b in data[..=i].iter().rev() { value = (value << 7) | (b & 0x7f) }`.
The `% 2 ^ 64` marks the `u64` width of `value` (the left shift discards
high bits); the or operand `b &&& 0x7f` is below `2 ^ 7`. -/
def varint_value (bytes : List Nat) : Nat :=
  bytes.reverse.foldl (fun value b => ((value <<< 7) % 2 ^ 64) ||| (b &&& 0x7f)) 0

/-- Loop body of `parse_varint` (`for i in 0..7`): `i` is the current index
into `data`, `fuel` the number of loop iterations left (7 at entry).  When the
iterations are exhausted or `data.get(i)` is `None`, the scan fails with
`InvalidVarint`; a byte with a clear continuation bit ends the scan. -/
def parse_varint_loop (data : List Nat) : Nat → Nat → Except Error (Nat × List Nat)
  | _, 0 => Except.error Error.InvalidVarint
  | i, fuel + 1 =>
    match data[i]? with
    | none => Except.error Error.InvalidVarint
    | some b =>
      if b &&& 0x80 = 0 then
        Except.ok (varint_value (data.take (i + 1)), data.drop (i + 1))
      else
        parse_varint_loop data (i + 1) fuel

/-- Translation of `parse_varint`: scan at most 7 bytes for a byte with a
clear continuation bit, returning the decoded value and the remaining bytes. -/
def parse_varint (data : List Nat) : Except Error (Nat × List Nat) :=
  parse_varint_loop data 0 7

/-- Translation of `impl TryFrom<u64> for WireType`: 0, 2 and 5 map to the
three wire types, every other value is `InvalidWireType`. -/
def wire_type_try_from (value : Nat) : Except Error WireType :=
  match value with
  | 0 => Except.ok WireType.Varint
  | 2 => Except.ok WireType.Len
  | 5 => Except.ok WireType.I32
  | _ => Except.error Error.InvalidWireType

/-- Translation of `unpack_tag`: field number is `tag >> 3`, wire type comes
from the low three bits `tag & 0x7`. -/
def unpack_tag (tag : Nat) : Except Error (Nat × WireType) :=
  match wire_type_try_from (tag &&& 0x7) with
  | Except.error e => Except.error e
  | Except.ok wire_type => Except.ok (tag >>> 3, wire_type)

/-- Model of `usize::try_from(length)` on a platform whose `usize` has `ub`
bits: values below `2 ^ ub` convert, larger ones give `InvalidSize` (the
`TryFromIntError` converted through `#[from]`).  On the common 64-bit
platform `ub = 64`. -/
def usize_try_from (ub : Nat) (n : Nat) : Except Error Nat :=
  if n < 2 ^ ub then Except.ok n else Except.error Error.InvalidSize

/-- Model of `i32::from_le_bytes` applied to four bytes (least significant
first): assemble the unsigned 32-bit value and reinterpret it as signed
two's complement. -/
def i32_from_le_bytes (b0 b1 b2 b3 : Nat) : Int :=
  let u : Nat := b0 % 256 + b1 % 256 * 256 + b2 % 256 * 65536 + b3 % 256 * 16777216
  if u < 2147483648 then (u : Int) else (u : Int) - 4294967296

/-- Translation of `parse_field`: decode the tag varint, unpack it, then
decode the value according to the wire type.  `ub` is the platform `usize`
width used by `usize::try_from` in the `Len` branch. -/
def parse_field (ub : Nat) (data : List Nat) : Except Error (Field × List Nat) :=
  match parse_varint data with
  | Except.error e => Except.error e
  | Except.ok (tag, remainder) =>
    match unpack_tag tag with
    | Except.error e => Except.error e
    | Except.ok (field_num, wire_type) =>
      match wire_type with
      | WireType.Varint =>
        match parse_varint remainder with
        | Except.error e => Except.error e
        | Except.ok (value, remainder2) =>
          Except.ok (⟨field_num, FieldValue.Varint value⟩, remainder2)
      | WireType.Len =>
        match parse_varint remainder with
        | Except.error e => Except.error e
        | Except.ok (length, remainder2) =>
          match usize_try_from ub length with
          | Except.error e => Except.error e
          | Except.ok length2 =>
            if remainder2.length < length2 then Except.error Error.UnexpectedEOF
            else
              Except.ok (⟨field_num, FieldValue.Len (remainder2.take length2)⟩,
                remainder2.drop length2)
      | WireType.I32 =>
        if remainder.length < 4 then Except.error Error.UnexpectedEOF
        else
          Except.ok (⟨field_num,
            FieldValue.I32 (i32_from_le_bytes (remainder.getD 0 0) (remainder.getD 1 0)
              (remainder.getD 2 0) (remainder.getD 3 0))⟩,
            remainder.drop 4)

/-- Successful runs of the varint loop return a strict suffix of the input:
the remainder is `data.drop (j + 1)` for the index `j < data.length` of the
terminating byte. -/
theorem parse_varint_loop_drop (data : List Nat) :
    ∀ fuel i v rest, parse_varint_loop data i fuel = Except.ok (v, rest) →
      ∃ j, i ≤ j ∧ j < data.length ∧ rest = data.drop (j + 1) := by
  intro fuel
  induction fuel with
  | zero => intro i v rest h; simp [parse_varint_loop] at h
  | succ f ih =>
    intro i v rest h
    cases hg : data[i]? with
    | none => simp [parse_varint_loop, hg] at h
    | some b =>
      simp only [parse_varint_loop, hg] at h
      by_cases hb : b &&& 0x80 = 0
      · rw [if_pos hb] at h
        have hlt : i < data.length := (List.getElem?_eq_some.mp hg).1
        refine ⟨i, Nat.le_refl i, hlt, ?_⟩
        cases h
        rfl
      · rw [if_neg hb] at h
        obtain ⟨j, hij, hj, hrest⟩ := ih (i + 1) v rest h
        exact ⟨j, by omega, hj, hrest⟩

/-- Successful `parse_varint` runs consume at least the terminating byte:
the remainder is a strictly shorter suffix of the input. -/
theorem parse_varint_consumes (data : List Nat) (v : Nat) (rest : List Nat)
    (h : parse_varint data = Except.ok (v, rest)) :
    List.IsSuffix rest data ∧ rest.length < data.length := by
  obtain ⟨j, _, hj, hrest⟩ := parse_varint_loop_drop data 7 0 v rest h
  subst hrest
  refine ⟨List.drop_suffix (j + 1) data, ?_⟩
  rw [List.length_drop]
  omega

/-- Successful `parse_field` runs consume at least the one-byte tag: the
remainder is a strictly shorter suffix of the input. -/
theorem parse_field_consumes (ub : Nat) (data : List Nat) (field : Field)
    (rest : List Nat) (h : parse_field ub data = Except.ok (field, rest)) :
    List.IsSuffix rest data ∧ rest.length < data.length := by
  cases hv1 : parse_varint data with
  | error e => simp [parse_field, hv1] at h
  | ok p1 =>
    obtain ⟨tag, r1⟩ := p1
    have hc1 := parse_varint_consumes data tag r1 hv1
    cases hu : unpack_tag tag with
    | error e => simp [parse_field, hv1, hu] at h
    | ok p2 =>
      obtain ⟨fn, wt⟩ := p2
      cases wt with
      | Varint =>
        cases hv2 : parse_varint r1 with
        | error e => simp [parse_field, hv1, hu, hv2] at h
        | ok p3 =>
          obtain ⟨v2, r2⟩ := p3
          have hc2 := parse_varint_consumes r1 v2 r2 hv2
          simp only [parse_field, hv1, hu, hv2] at h
          cases h
          exact ⟨hc2.1.trans hc1.1, by omega⟩
      | Len =>
        cases hv2 : parse_varint r1 with
        | error e => simp [parse_field, hv1, hu, hv2] at h
        | ok p3 =>
          obtain ⟨len0, r2⟩ := p3
          have hc2 := parse_varint_consumes r1 len0 r2 hv2
          cases hus : usize_try_from ub len0 with
          | error e => simp [parse_field, hv1, hu, hv2, hus] at h
          | ok len2 =>
            simp only [parse_field, hv1, hu, hv2, hus] at h
            by_cases he : r2.length < len2
            · rw [if_pos he] at h; cases h
            · rw [if_neg he] at h
              cases h
              refine ⟨(List.drop_suffix len2 r2).trans (hc2.1.trans hc1.1), ?_⟩
              rw [List.length_drop]
              omega
      | I32 =>
        simp only [parse_field, hv1, hu] at h
        by_cases he : r1.length < 4
        · rw [if_pos he] at h; cases h
        · rw [if_neg he] at h
          cases h
          refine ⟨(List.drop_suffix 4 r1).trans hc1.1, ?_⟩
          rw [List.length_drop]
          omega

/-- Loop of `parse_message` (`while !data.is_empty()`), in fuel-indexed form:
`fuel` bounds the number of iterations and the invariant `data.length ≤ fuel`
makes the bound sufficient, since every successful `parse_field` consumes at
least one byte (`parse_field_consumes`).  With zero fuel the invariant forces
`data = []`, which is exactly the loop exit. -/
def parse_message_go {α : Type} (M : ProtoMessage α) (ub : Nat) :
    (fuel : Nat) → α → (data : List Nat) → data.length ≤ fuel → PResult α
  | 0, result, _, _ => PResult.ok result
  | fuel + 1, result, data, h =>
    if data.isEmpty then PResult.ok result
    else
      match hp : parse_field ub data with
      | Except.error e => PResult.err e
      | Except.ok (field, rest) =>
        match M.add_field result field with
        | PResult.ok result2 =>
          parse_message_go M ub fuel result2 rest (by
            have hc := parse_field_consumes ub data field rest hp
            omega)
        | PResult.err e => PResult.err e
        | PResult.panicked => PResult.panicked

/-- Translation of `parse_message`: start from the record's default value and
feed every decoded field to `add_field` until the buffer is empty.  The
initial fuel `data.length` always suffices (each iteration consumes at least
one byte). -/
def parse_message {α : Type} (M : ProtoMessage α) (ub : Nat) (data : List Nat) :
    PResult α :=
  parse_message_go M ub data.length M.default data (Nat.le_refl data.length)

/-- Phone-number record, translated from `struct PhoneNumber<'a>`; the two
`&str` fields are modelled as validated byte lists. -/
structure PhoneNumber where
  number : List Nat
  type_ : List Nat
deriving DecidableEq

/-- Default value of `PhoneNumber` (derived `Default`: empty strings). -/
def PhoneNumber.default : PhoneNumber := ⟨[], []⟩

/-- Translation of `impl ProtoMessage for PhoneNumber`: field 1 is the
number string, field 2 the type string, others are ignored; `?` propagates
extraction errors. -/
def PhoneNumber.add_field (self : PhoneNumber) (field : Field) : PResult PhoneNumber :=
  match field.field_num with
  | 1 =>
    match as_string field.value with
    | Except.ok s => PResult.ok { self with number := s }
    | Except.error e => PResult.err e
  | 2 =>
    match as_string field.value with
    | Except.ok s => PResult.ok { self with type_ := s }
    | Except.error e => PResult.err e
  | _ => PResult.ok self

/-- Field sink instance for `PhoneNumber`. -/
def phone_message : ProtoMessage PhoneNumber :=
  ⟨PhoneNumber.default, PhoneNumber.add_field⟩

/-- Person record, translated from `struct Person<'a>`. -/
structure Person where
  name : List Nat
  id : Nat
  phone : List PhoneNumber
deriving DecidableEq

/-- Default value of `Person` (derived `Default`). -/
def Person.default : Person := ⟨[], 0, []⟩

/-- Translation of `impl ProtoMessage for Person`: field 1 is the name
string, field 2 the id varint, field 3 a nested `PhoneNumber` message.  The
source calls `parse_message(phone_data).unwrap()`, so a failed nested decode
does not return an error: it panics, modelled by `PResult.panicked`; an
inner panic also propagates as a panic. -/
def Person.add_field (ub : Nat) (self : Person) (field : Field) : PResult Person :=
  match field.field_num with
  | 1 =>
    match as_string field.value with
    | Except.ok s => PResult.ok { self with name := s }
    | Except.error e => PResult.err e
  | 2 =>
    match as_u64 field.value with
    | Except.ok v => PResult.ok { self with id := v }
    | Except.error e => PResult.err e
  | 3 =>
    match as_bytes field.value with
    | Except.error e => PResult.err e
    | Except.ok phone_data =>
      match parse_message phone_message ub phone_data with
      | PResult.ok phonenumber => PResult.ok { self with phone := self.phone ++ [phonenumber] }
      | PResult.err _ => PResult.panicked
      | PResult.panicked => PResult.panicked
  | _ => PResult.ok self

/-- Field sink instance for `Person` on a platform with `ub`-bit `usize`. -/
def person_message (ub : Nat) : ProtoMessage Person :=
  ⟨Person.default, Person.add_field ub⟩

example : parse_varint [0x2a, 9] = Except.ok (42, [9]) := rfl
example : parse_varint [0xac, 0x02] = Except.ok (300, []) := rfl
example : parse_field 64 [0x08, 0x01] = Except.ok (⟨1, FieldValue.Varint 1⟩, []) := rfl
example : parse_message phone_message 64 [0x08] = PResult.err Error.InvalidVarint := rfl

/-- C1: the claim says a decode error inside a nested embedded-message field is
propagated as an error result to the caller of `parse_message`.  The code
instead calls `.unwrap()` on the recursive decode in `Person::add_field` for
field 3, so on the 3-byte input `[0x1a, 0x01, 0x08]` (field 3, length 1,
payload `[0x08]` whose nested decode fails with `InvalidVarint`) the nested
error becomes a panic rather than an `Err` result: the code contradicts the
spec's required error propagation. -/
theorem c1_nested_decode_error_panics :
    parse_message phone_message 64 [0x08] = PResult.err Error.InvalidVarint ∧
    parse_message (person_message 64) 64 [0x1a, 0x01, 0x08] = PResult.panicked :=
  ⟨rfl, rfl⟩

/-- C2: decoding the 62-byte example buffer into a `Person` succeeds,
consuming the whole input, and yields name "maxwell", id 42 and the two
phone entries ("+1202-555-1212", "home") and ("+1800-867-5308", "mobile")
in that order (strings shown as their byte lists). -/
theorem c2_person_end_to_end :
    parse_message (person_message 64) 64
      [0x0a, 0x07, 0x6d, 0x61, 0x78, 0x77, 0x65, 0x6c, 0x6c, 0x10, 0x2a, 0x1a, 0x16, 0x0a,
       0x0e, 0x2b, 0x31, 0x32, 0x30, 0x32, 0x2d, 0x35, 0x35, 0x35, 0x2d, 0x31, 0x32, 0x31,
       0x32, 0x12, 0x04, 0x68, 0x6f, 0x6d, 0x65, 0x1a, 0x18, 0x0a, 0x0e, 0x2b, 0x31, 0x38,
       0x30, 0x30, 0x2d, 0x38, 0x36, 0x37, 0x2d, 0x35, 0x33, 0x30, 0x38, 0x12, 0x06, 0x6d,
       0x6f, 0x62, 0x69, 0x6c, 0x65] =
    PResult.ok
      ⟨[0x6d, 0x61, 0x78, 0x77, 0x65, 0x6c, 0x6c], 42,
       [⟨[0x2b, 0x31, 0x32, 0x30, 0x32, 0x2d, 0x35, 0x35, 0x35, 0x2d, 0x31, 0x32, 0x31, 0x32],
         [0x68, 0x6f, 0x6d, 0x65]⟩,
        ⟨[0x2b, 0x31, 0x38, 0x30, 0x30, 0x2d, 0x38, 0x36, 0x37, 0x2d, 0x35, 0x33, 0x30, 0x38],
         [0x6d, 0x6f, 0x62, 0x69, 0x6c, 0x65]⟩]⟩ := rfl

/-- C5: for every tag, `unpack_tag` returns field number `tag >>> 3` together
with the wire type mapped from the low three bits (0 to `Varint`, 2 to `Len`,
5 to `I32`), and fails with `InvalidWireType` on every other low-3-bit
pattern; in particular tag 0x0a unpacks to (1, Len) and 0x10 to (2, Varint). -/
theorem c5_unpack_tag_spec (tag : Nat) :
    (tag &&& 7 = 0 → unpack_tag tag = Except.ok (tag >>> 3, WireType.Varint)) ∧
    (tag &&& 7 = 2 → unpack_tag tag = Except.ok (tag >>> 3, WireType.Len)) ∧
    (tag &&& 7 = 5 → unpack_tag tag = Except.ok (tag >>> 3, WireType.I32)) ∧
    (tag &&& 7 ≠ 0 ∧ tag &&& 7 ≠ 2 ∧ tag &&& 7 ≠ 5 →
      unpack_tag tag = Except.error Error.InvalidWireType) ∧
    unpack_tag 0x0a = Except.ok (1, WireType.Len) ∧
    unpack_tag 0x10 = Except.ok (2, WireType.Varint) := by
  refine ⟨?_, ?_, ?_, ?_, rfl, rfl⟩
  · intro h; simp [unpack_tag, h, wire_type_try_from]
  · intro h; simp [unpack_tag, h, wire_type_try_from]
  · intro h; simp [unpack_tag, h, wire_type_try_from]
  · rintro ⟨h0, h2, h5⟩
    have h8 : tag &&& 7 ≤ 7 := Nat.and_le_right
    have hcases : tag &&& 7 = 1 ∨ tag &&& 7 = 3 ∨ tag &&& 7 = 4 ∨ tag &&& 7 = 6 ∨
        tag &&& 7 = 7 := by omega
    rcases hcases with h | h | h | h | h <;> simp [unpack_tag, h, wire_type_try_from]

/-- Witness for C5: tag 0x10 has low bits 0, so it unpacks to field number
`0x10 >>> 3 = 2` with wire type `Varint`. -/
theorem c5_witness : unpack_tag 0x10 = Except.ok (0x10 >>> 3, WireType.Varint) :=
  (c5_unpack_tag_spec 0x10).1 rfl

/-- C7: on a buffer whose tag decodes to wire type `I32`, `parse_field` fails
with `UnexpectedEOF` when fewer than 4 bytes remain after the tag, and
otherwise returns the 4 bytes interpreted as a little-endian signed 32-bit
integer with the remainder starting after the fourth byte. -/
theorem c7_parse_field_i32_spec (ub : Nat) (data : List Nat) (tag fn : Nat)
    (r1 : List Nat) (h1 : parse_varint data = Except.ok (tag, r1))
    (h2 : unpack_tag tag = Except.ok (fn, WireType.I32)) :
    (r1.length < 4 → parse_field ub data = Except.error Error.UnexpectedEOF) ∧
    (∀ b0 b1 b2 b3 r, r1 = b0 :: b1 :: b2 :: b3 :: r →
      parse_field ub data =
        Except.ok (⟨fn, FieldValue.I32 (i32_from_le_bytes b0 b1 b2 b3)⟩, r)) := by
  constructor
  · intro he
    simp [parse_field, h1, h2, if_pos he]
  · rintro b0 b1 b2 b3 r rfl
    have hlen : ¬ (b0 :: b1 :: b2 :: b3 :: r).length < 4 := by simp
    simp [parse_field, h1, h2, if_neg hlen, List.getD]

/-- Witness for C7: the buffer `[0x0d, 1, 0, 0, 0, 7]` carries tag 0x0d
(field 1, wire type I32) and the little-endian bytes of 1, leaving `[7]`. -/
theorem c7_witness :
    parse_field 64 [0x0d, 1, 0, 0, 0, 7] =
      Except.ok (⟨1, FieldValue.I32 (i32_from_le_bytes 1 0 0 0)⟩, [7]) :=
  (c7_parse_field_i32_spec 64 [0x0d, 1, 0, 0, 0, 7] 0x0d 1 [1, 0, 0, 0, 7] rfl rfl).2
    1 0 0 0 [7] rfl

/-- C8: `as_string` and `as_bytes` fail with `UnexpectedWireType` on every
`Varint` or `I32` value and `as_u64` fails with `UnexpectedWireType` on every
`Len` or `I32` value; on a `Len` value `as_string` fails with `InvalidString`
exactly when the bytes are not valid UTF-8 and returns the bytes otherwise
(in particular "hello"), while `as_bytes` returns the borrowed range
unchanged. -/
theorem c8_typed_extraction_spec :
    (∀ n, as_string (FieldValue.Varint n) = Except.error Error.UnexpectedWireType) ∧
    (∀ i, as_string (FieldValue.I32 i) = Except.error Error.UnexpectedWireType) ∧
    (∀ n, as_bytes (FieldValue.Varint n) = Except.error Error.UnexpectedWireType) ∧
    (∀ i, as_bytes (FieldValue.I32 i) = Except.error Error.UnexpectedWireType) ∧
    (∀ d, as_u64 (FieldValue.Len d) = Except.error Error.UnexpectedWireType) ∧
    (∀ i, as_u64 (FieldValue.I32 i) = Except.error Error.UnexpectedWireType) ∧
    (∀ d, as_string (FieldValue.Len d) = Except.error Error.InvalidString ↔
      utf8Valid d = false) ∧
    (∀ d, utf8Valid d = true → as_string (FieldValue.Len d) = Except.ok d) ∧
    as_string (FieldValue.Len [0x68, 0x65, 0x6c, 0x6c, 0x6f]) =
      Except.ok [0x68, 0x65, 0x6c, 0x6c, 0x6f] ∧
    (∀ d, as_bytes (FieldValue.Len d) = Except.ok d) := by
  refine ⟨fun n => rfl, fun i => rfl, fun n => rfl, fun i => rfl, fun d => rfl,
    fun i => rfl, ?_, ?_, rfl, fun d => rfl⟩
  · intro d
    cases hv : utf8Valid d <;> simp [as_string, hv]
  · intro d hv
    simp [as_string, hv]

/-- Witness for C8: the single byte 0xFF is not valid UTF-8, so `as_string`
on `Len [0xFF]` fails with `InvalidString`. -/
theorem c8_witness :
    as_string (FieldValue.Len [0xFF]) = Except.error Error.InvalidString :=
  ((c8_typed_extraction_spec.2.2.2.2.2.2.1) [0xFF]).mpr rfl

/-- C9: for every record type with a field sink, `parse_message` on the empty
buffer succeeds and returns the record's default value. -/
theorem c9_parse_message_empty {α : Type} (M : ProtoMessage α) (ub : Nat) :
    parse_message M ub [] = PResult.ok M.default := rfl

/-- Witness for C9: decoding the empty buffer as a `Person` yields the
default `Person`. -/
theorem c9_witness :
    parse_message (person_message 64) 64 [] = PResult.ok (person_message 64).default :=
  c9_parse_message_empty (person_message 64) 64

/-- C6: on a buffer whose tag decodes to wire type `Len`, `parse_field`
decodes a length varint (propagating its error), fails with `InvalidSize`
when the length does not fit the platform's `usize` width `ub`, fails with
`UnexpectedEOF` when fewer than that many bytes remain after the length
varint, and otherwise returns the sub-slice of exactly that length with the
remainder starting immediately after it. -/
theorem c6_parse_field_len_spec (ub : Nat) (data : List Nat) (tag fn : Nat)
    (r1 : List Nat) (h1 : parse_varint data = Except.ok (tag, r1))
    (h2 : unpack_tag tag = Except.ok (fn, WireType.Len)) :
    (∀ e, parse_varint r1 = Except.error e → parse_field ub data = Except.error e) ∧
    (∀ len r2, parse_varint r1 = Except.ok (len, r2) →
      (2 ^ ub ≤ len → parse_field ub data = Except.error Error.InvalidSize) ∧
      (len < 2 ^ ub → r2.length < len →
        parse_field ub data = Except.error Error.UnexpectedEOF) ∧
      (len < 2 ^ ub → len ≤ r2.length →
        parse_field ub data =
          Except.ok (⟨fn, FieldValue.Len (r2.take len)⟩, r2.drop len))) := by
  constructor
  · intro e he
    simp [parse_field, h1, h2, he]
  · intro len r2 hok
    refine ⟨?_, ?_, ?_⟩
    · intro hbig
      have hns : ¬ len < 2 ^ ub := by omega
      simp [parse_field, h1, h2, hok, usize_try_from, if_neg hns]
    · intro hfit heof
      simp [parse_field, h1, h2, hok, usize_try_from, if_pos hfit, if_pos heof]
    · intro hfit hroom
      have hne : ¬ r2.length < len := by omega
      simp [parse_field, h1, h2, hok, usize_try_from, if_pos hfit, if_neg hne]

/-- Witness for C6: the buffer `[0x0a, 3, 97, 98, 99, 7]` carries tag 0x0a
(field 1, wire type Len) and length 3, so the value is `[97, 98, 99]` and the
remainder `[7]`. -/
theorem c6_witness :
    parse_field 64 [0x0a, 3, 97, 98, 99, 7] =
      Except.ok (⟨1, FieldValue.Len [97, 98, 99]⟩, [7]) := by
  have h := (c6_parse_field_len_spec 64 [0x0a, 3, 97, 98, 99, 7] 0x0a 1
    [3, 97, 98, 99, 7] rfl rfl).2 3 [97, 98, 99, 7] rfl
  exact h.2.2 (by norm_num) (by norm_num)

/-- Characterization of the varint scan failing: starting at index `i` with
`fuel` iterations left, the scan reports `InvalidVarint` exactly when none of
the next `fuel` in-bounds bytes has a clear continuation bit. -/
theorem parse_varint_loop_error_iff (data : List Nat) :
    ∀ fuel i, parse_varint_loop data i fuel = Except.error Error.InvalidVarint ↔
      ∀ j b, j < fuel → data[i + j]? = some b → b &&& 0x80 ≠ 0 := by
  intro fuel
  induction fuel with
  | zero =>
    intro i
    simp [parse_varint_loop]
  | succ f ih =>
    intro i
    cases hg : data[i]? with
    | none =>
      have hlen : data.length ≤ i := by
        by_contra hc
        rw [List.getElem?_eq_getElem (by omega)] at hg
        cases hg
      simp only [parse_varint_loop, hg]
      constructor
      · intro _ j b _ hsome
        have hnone : data[i + j]? = none := List.getElem?_eq_none (by omega)
        rw [hnone] at hsome
        cases hsome
      · intro _
        trivial
    | some b0 =>
      simp only [parse_varint_loop, hg]
      by_cases hb : b0 &&& 0x80 = 0
      · rw [if_pos hb]
        constructor
        · intro hcontra
          cases hcontra
        · intro hall
          exact absurd hb (by simpa using hall 0 b0 (Nat.succ_pos f) (by simpa using hg))
      · rw [if_neg hb]
        rw [ih (i + 1)]
        constructor
        · intro hall j b hj hsome
          match j with
          | 0 =>
            rw [Nat.add_zero] at hsome
            rw [hg] at hsome
            cases hsome
            exact hb
          | j + 1 =>
            have harr : i + (j + 1) = i + 1 + j := by omega
            rw [harr] at hsome
            exact hall j b (by omega) hsome
        · intro hall j b hj hsome
          have harr : i + 1 + j = i + (j + 1) := by omega
          rw [harr] at hsome
          exact hall (j + 1) b (by omega) hsome

/-- The varint scan can only succeed or report `InvalidVarint`. -/
theorem parse_varint_loop_ok_or (data : List Nat) :
    ∀ fuel i, (∃ v rest, parse_varint_loop data i fuel = Except.ok (v, rest)) ∨
      parse_varint_loop data i fuel = Except.error Error.InvalidVarint := by
  intro fuel
  induction fuel with
  | zero => intro i; right; rfl
  | succ f ih =>
    intro i
    cases hg : data[i]? with
    | none => right; simp [parse_varint_loop, hg]
    | some b0 =>
      by_cases hb : b0 &&& 0x80 = 0
      · left
        exact ⟨varint_value (data.take (i + 1)), data.drop (i + 1),
          by simp [parse_varint_loop, hg, if_pos hb]⟩
      · have := ih (i + 1)
        simpa [parse_varint_loop, hg, if_neg hb] using this

/-- C4: `parse_varint` fails with `InvalidVarint` exactly when no byte among
the first `min 7 data.length` bytes has a clear continuation bit (covering
both seven continuation bytes with no terminator and a buffer exhausted
before a terminator); in every other case it succeeds. -/
theorem c4_parse_varint_error_iff (data : List Nat) :
    (parse_varint data = Except.error Error.InvalidVarint ↔
      ∀ k, k < min 7 data.length → data.getD k 0 &&& 0x80 ≠ 0) ∧
    ((∃ k, k < min 7 data.length ∧ data.getD k 0 &&& 0x80 = 0) →
      ∃ v rest, parse_varint data = Except.ok (v, rest)) := by
  have hiff : parse_varint data = Except.error Error.InvalidVarint ↔
      ∀ k, k < min 7 data.length → data.getD k 0 &&& 0x80 ≠ 0 := by
    rw [parse_varint, parse_varint_loop_error_iff data 7 0]
    constructor
    · intro hall k hk
      have hklen : k < data.length := by omega
      refine hall k (data.getD k 0) (by omega) ?_
      rw [Nat.zero_add, List.getElem?_eq_getElem hklen, List.getD_eq_getElem data 0 hklen]
    · intro hall j b hj hsome
      have hjlen : j < data.length := (List.getElem?_eq_some.mp (by simpa using hsome)).1
      have hb : data.getD j 0 = b := by
        rw [List.getD_eq_getElem data 0 hjlen]
        have := List.getElem?_eq_getElem hjlen
        rw [Nat.zero_add] at hsome
        rw [this] at hsome
        cases hsome
        rfl
      rw [← hb]
      exact hall j (by omega)
  refine ⟨hiff, ?_⟩
  intro hex
  rcases parse_varint_loop_ok_or data 7 0 with hok | herr
  · exact hok
  · exfalso
    obtain ⟨k, hk, hclear⟩ := hex
    exact (hiff.mp herr) k hk hclear

/-- Witness for C4: seven continuation bytes with no terminator make
`parse_varint` fail with `InvalidVarint`. -/
theorem c4_witness :
    parse_varint [0x80, 0x80, 0x80, 0x80, 0x80, 0x80, 0x80] =
      Except.error Error.InvalidVarint :=
  (c4_parse_varint_error_iff [0x80, 0x80, 0x80, 0x80, 0x80, 0x80, 0x80]).1.mpr
    (by decide)

/-- Disjoint bitwise or is addition: when `b` fits in the `k` low bits that
`a * 2 ^ k` leaves free, `|||` coincides with `+`. -/
theorem mul_two_pow_or_eq_add : ∀ (k a b : Nat), b < 2 ^ k →
    a * 2 ^ k ||| b = a * 2 ^ k + b := by
  intro k
  induction k with
  | zero =>
    intro a b hb
    rw [pow_zero] at hb ⊢
    have hb0 : b = 0 := by omega
    subst hb0
    simp
  | succ k ih =>
    intro a b hb
    have h2 : (2 : Nat) ^ (k + 1) = 2 ^ k * 2 := by rw [Nat.pow_succ]
    have hmul : a * 2 ^ (k + 1) = a * 2 ^ k * 2 := by rw [h2, Nat.mul_assoc]
    have hbd : b / 2 < 2 ^ k := by omega
    have hih := ih a (b / 2) hbd
    have hdiv : (a * 2 ^ k * 2 ||| b) / 2 = a * 2 ^ k ||| b / 2 := by
      rw [Nat.or_div_two]
      congr 1
      omega
    have hpar : (a * 2 ^ k * 2 ||| b) % 2 = b % 2 := by
      rcases Nat.mod_two_eq_zero_or_one b with hbm | hbm
      · by_cases hx : (a * 2 ^ k * 2 ||| b) % 2 = 1
        · rcases Nat.or_mod_two_eq_one.mp hx with h | h <;> omega
        · omega
      · have := (Nat.or_mod_two_eq_one (a := a * 2 ^ k * 2) (b := b)).mpr (Or.inr hbm)
        omega
    have hx2 : a * 2 ^ k * 2 ||| b =
        2 * ((a * 2 ^ k * 2 ||| b) / 2) + (a * 2 ^ k * 2 ||| b) % 2 := by omega
    rw [hmul, hx2, hdiv, hih, hpar]
    omega

/-- Low-bit mask: `x &&& 0x7f` is `x % 128`. -/
theorem and_127_eq_mod (x : Nat) : x &&& 127 = x % 128 := by
  have h := Nat.and_pow_two_sub_one_eq_mod x 7
  norm_num at h
  exact h

/-- Continuation-bit test as arithmetic: `x &&& 0x80 = 0` is bit 7 clear. -/
theorem and_128_eq_zero_iff (x : Nat) : x &&& 128 = 0 ↔ x / 128 % 2 = 0 := by
  have h1 : x &&& 128 = (x.testBit 7).toNat * 128 := by
    have h := Nat.and_two_pow x 7
    norm_num at h
    exact h
  rw [h1, Nat.testBit_to_div_mod]
  norm_num

/-- Unfolding of `varint_value` over the first (least significant) byte. -/
theorem varint_value_cons (b : Nat) (bs : List Nat) :
    varint_value (b :: bs) = ((varint_value bs <<< 7) % 2 ^ 64) ||| (b &&& 0x7f) := by
  unfold varint_value
  rw [List.reverse_cons, List.foldl_append]
  rfl

/-- Minimal-length base-128 continuation-bit encoding of `v`, used to state
the round-trip claim: low 7 bits first, continuation bit 0x80 set on every
byte except the last. -/
def varint_encode (v : Nat) : List Nat :=
  if v < 0x80 then [v]
  else (v % 0x80 + 0x80) :: varint_encode (v / 0x80)
termination_by v
decreasing_by exact Nat.div_lt_self (by omega) (by omega)

/-- Unfolding of `varint_encode` below 0x80. -/
theorem varint_encode_small (v : Nat) (h : v < 0x80) : varint_encode v = [v] := by
  unfold varint_encode
  rw [if_pos h]

/-- Unfolding of `varint_encode` at 0x80 and above. -/
theorem varint_encode_large (v : Nat) (h : ¬ v < 0x80) :
    varint_encode v = (v % 0x80 + 0x80) :: varint_encode (v / 0x80) := by
  conv_lhs => rw [varint_encode]
  rw [if_neg h]

/-- Structure of the minimal encoding: for `v < 2 ^ (7 * (k + 1))` with
`k ≤ 6`, the encoding is continuation bytes followed by one terminating byte,
has at most `k + 1` bytes, and `varint_value` rebuilds exactly `v` from it. -/
theorem varint_encode_spec :
    ∀ k, k ≤ 6 → ∀ v, v < 2 ^ (7 * (k + 1)) →
      ∃ pre t, varint_encode v = pre ++ [t] ∧ pre.length ≤ k ∧
        (∀ b ∈ pre, b &&& 0x80 ≠ 0) ∧ t &&& 0x80 = 0 ∧
        varint_value (pre ++ [t]) = v := by
  have hbase : ∀ v : Nat, v < 0x80 →
      ∃ pre t, varint_encode v = pre ++ [t] ∧ pre.length ≤ 0 ∧
        (∀ b ∈ pre, b &&& 0x80 ≠ 0) ∧ t &&& 0x80 = 0 ∧
        varint_value (pre ++ [t]) = v := by
    intro v hv
    refine ⟨[], v, by rw [varint_encode_small v hv]; rfl, by simp, by simp, ?_, ?_⟩
    · rw [and_128_eq_zero_iff]
      omega
    · rw [List.nil_append, varint_value_cons]
      have h0 : varint_value [] = 0 := rfl
      rw [h0, and_127_eq_mod]
      simp
      omega
  intro k
  induction k with
  | zero =>
    intro _ v hv
    norm_num at hv
    exact hbase v hv
  | succ k ih =>
    intro hk v hv
    by_cases hsmall : v < 0x80
    · obtain ⟨pre, t, henc, hlen, hpre, ht, hval⟩ := hbase v hsmall
      exact ⟨pre, t, henc, by omega, hpre, ht, hval⟩
    · have hp : (2 : Nat) ^ (7 * (k + 2)) = 2 ^ (7 * (k + 1)) * 128 := by
        have : 7 * (k + 2) = 7 * (k + 1) + 7 := by ring
        rw [this, pow_add]
        norm_num
      have hrec : v / 0x80 < 2 ^ (7 * (k + 1)) := by
        rw [hp] at hv
        omega
      obtain ⟨pre, t, henc, hlen, hpre, ht, hval⟩ := ih (by omega) (v / 0x80) hrec
      refine ⟨(v % 0x80 + 0x80) :: pre, t, ?_, by simp; omega, ?_, ht, ?_⟩
      · rw [varint_encode_large v hsmall, henc]
        rfl
      · intro b hb
        rcases List.mem_cons.mp hb with hb1 | hb2
        · subst hb1
          rw [Ne, and_128_eq_zero_iff]
          omega
        · exact hpre b hb2
      · have hcons : ((v % 0x80 + 0x80) :: pre) ++ [t] =
            (v % 0x80 + 0x80) :: (pre ++ [t]) := rfl
        rw [hcons, varint_value_cons, hval, Nat.shiftLeft_eq, and_127_eq_mod]
        have hmod : (v % 0x80 + 0x80) % 128 = v % 128 := by omega
        rw [hmod]
        have hklim : (2 : Nat) ^ (7 * (k + 1)) ≤ 2 ^ 49 := by
          apply Nat.pow_le_pow_right (by norm_num)
          omega
        have h64 : (2 : Nat) ^ 49 * 128 < 2 ^ 64 := by norm_num
        have hlt64 : v / 0x80 * 2 ^ 7 < 2 ^ 64 := by
          have h7 : (2 : Nat) ^ 7 = 128 := by norm_num
          rw [h7]
          have : v / 0x80 < 2 ^ 49 := by omega
          omega
        rw [Nat.mod_eq_of_lt hlt64]
        have hor := mul_two_pow_or_eq_add 7 (v / 0x80) (v % 128) (by norm_num; omega)
        rw [hor]
        have h7 : (2 : Nat) ^ 7 = 128 := by norm_num
        rw [h7]
        omega

/-- With continuation bytes `pre`, a terminating byte `t` and suffix `s` laid
out after an already-consumed prefix `done`, the varint scan starting at
index `done.length` finds `t` and returns the value of the consumed bytes
together with `s`, provided the fuel exceeds `pre.length`. -/
theorem parse_varint_loop_find (t : Nat) (s : List Nat) (ht : t &&& 0x80 = 0) :
    ∀ (pre done : List Nat) (fuel : Nat), (∀ b ∈ pre, b &&& 0x80 ≠ 0) →
      pre.length < fuel →
      parse_varint_loop (done ++ (pre ++ t :: s)) done.length fuel =
        Except.ok (varint_value (done ++ pre ++ [t]), s) := by
  intro pre
  induction pre with
  | nil =>
    intro done fuel _ hfuel
    obtain ⟨f, rfl⟩ : ∃ f, fuel = f + 1 := ⟨fuel - 1, by omega⟩
    simp only [List.nil_append]
    have hget : (done ++ t :: s)[done.length]? = some t := by
      rw [List.getElem?_append_right (Nat.le_refl _)]
      simp
    have htake : (done ++ t :: s).take (done.length + 1) = done ++ [t] := by
      rw [List.take_append_eq_append_take, List.take_of_length_le (by omega)]
      congr 1
      have h1 : done.length + 1 - done.length = 1 := by omega
      rw [h1]
      simp
    have hdrop : (done ++ t :: s).drop (done.length + 1) = s := by
      rw [List.drop_append_eq_append_drop, List.drop_eq_nil_of_le (by omega)]
      have h1 : done.length + 1 - done.length = 1 := by omega
      rw [h1]
      simp
    simp only [parse_varint_loop, hget, if_pos ht, htake, hdrop]
    simp

  | cons b pre2 ih =>
    intro done fuel hpre hfuel
    obtain ⟨f, rfl⟩ : ∃ f, fuel = f + 1 := ⟨fuel - 1, by simp at hfuel; omega⟩
    have hb : b &&& 0x80 ≠ 0 := hpre b (List.mem_cons_self b pre2)
    have hget : (done ++ ((b :: pre2) ++ t :: s))[done.length]? = some b := by
      rw [List.getElem?_append_right (Nat.le_refl _)]
      simp
    simp only [parse_varint_loop, hget, if_neg hb]
    have hrearr : done ++ ((b :: pre2) ++ t :: s) =
        (done ++ [b]) ++ (pre2 ++ t :: s) := by simp
    have hlen2 : (done ++ [b]).length = done.length + 1 := by simp
    rw [hrearr, ← hlen2,
      ih (done ++ [b]) f (fun x hx => hpre x (List.mem_cons_of_mem b hx))
        (by simp at hfuel ⊢; omega)]
    congr 2
    simp

/-- C3: for every value representable in at most 49 bits and every suffix,
`parse_varint` applied to the minimal base-128 continuation-bit encoding of
the value followed by the suffix succeeds and returns exactly the value and
the suffix. -/
theorem c3_varint_roundtrip (v : Nat) (s : List Nat) (hv : v < 2 ^ 49) :
    parse_varint (varint_encode v ++ s) = Except.ok (v, s) := by
  obtain ⟨pre, t, henc, hlen, hpre, ht, hval⟩ :=
    varint_encode_spec 6 (by omega) v (by
      have h49 : 7 * (6 + 1) = 49 := by norm_num
      rw [h49]
      exact hv)
  rw [henc]
  have heq : (pre ++ [t]) ++ s = pre ++ (t :: s) := by simp
  rw [heq]
  unfold parse_varint
  have hfind := parse_varint_loop_find t s ht pre [] 7 hpre (by omega)
  simp only [List.nil_append, List.length_nil] at hfind
  rw [hfind, hval]

/-- Witness for C3: the two-byte minimal encoding of 300 followed by `[1, 2]`
decodes to 300 with remainder `[1, 2]`. -/
theorem c3_witness :
    parse_varint (varint_encode 300 ++ [1, 2]) = Except.ok (300, [1, 2]) :=
  c3_varint_roundtrip 300 [1, 2] (by norm_num)

/-- Fuel of the message loop is irrelevant once it dominates the buffer
length: the loop always exits by emptying the buffer, never by running out
of fuel. -/
theorem parse_message_go_fuel_irrel {α : Type} (M : ProtoMessage α) (ub : Nat) :
    ∀ fuel1 fuel2 result (data : List Nat) (h1 : data.length ≤ fuel1)
      (h2 : data.length ≤ fuel2),
      parse_message_go M ub fuel1 result data h1 =
        parse_message_go M ub fuel2 result data h2 := by
  intro fuel1
  induction fuel1 with
  | zero =>
    intro fuel2 result data h1 h2
    have hd : data = [] := List.length_eq_zero.mp (Nat.le_zero.mp h1)
    subst hd
    cases fuel2 with
    | zero => rfl
    | succ g => simp [parse_message_go]
  | succ f ih =>
    intro fuel2 result data h1 h2
    cases fuel2 with
    | zero =>
      have hd : data = [] := List.length_eq_zero.mp (Nat.le_zero.mp h2)
      subst hd
      simp [parse_message_go]
    | succ g =>
      by_cases hd : data.isEmpty
      · simp [parse_message_go, hd]
      · simp only [parse_message_go, hd, Bool.false_eq_true, if_false]
        split
        next e1 hp1 => rfl
        next field1 rest1 hp1 =>
          split
          next x result2 hp2 => exact ih g result2 rest1 _ _
          next x e2 hp2 => rfl
          next x hp2 => rfl

/-- C10: every successful `parse_field` returns a strictly shorter suffix of
its input (at least the one-byte tag is consumed), and consequently the
result of the `parse_message` loop does not depend on the iteration bound
once it dominates the buffer length: the `while` loop over the shrinking
slice always terminates by emptying the buffer. -/
theorem c10_progress_and_termination :
    (∀ ub data field rest, parse_field ub data = Except.ok (field, rest) →
      List.IsSuffix rest data ∧ rest.length < data.length) ∧
    (∀ (α : Type) (M : ProtoMessage α) (ub fuel : Nat) (data : List Nat)
      (h : data.length ≤ fuel),
      parse_message_go M ub fuel M.default data h = parse_message M ub data) :=
  ⟨parse_field_consumes, fun _ M ub fuel data h =>
    parse_message_go_fuel_irrel M ub fuel data.length M.default data h
      (Nat.le_refl data.length)⟩

/-- Witness for C10: on `[0x08, 0x01]` the parsed field leaves the empty,
strictly shorter suffix as remainder, and running the `Person` loop with
surplus fuel 5 on `[0x10, 0x2a]` agrees with `parse_message`. -/
theorem c10_witness :
    (List.IsSuffix ([] : List Nat) [0x08, 0x01] ∧
      ([] : List Nat).length < [0x08, 0x01].length) ∧
    parse_message_go (person_message 64) 64 5 Person.default [0x10, 0x2a]
      (by norm_num) = parse_message (person_message 64) 64 [0x10, 0x2a] :=
  ⟨c10_progress_and_termination.1 64 [0x08, 0x01] ⟨1, FieldValue.Varint 1⟩ [] rfl,
   c10_progress_and_termination.2 Person (person_message 64) 64 5 [0x10, 0x2a]
     (by norm_num)⟩

end Proto
